import Mathlib

/-!
Verification of the resume-parser core and the CareerFairAI page component
of this repository, via a shallow embedding in Lean 4.

The resume parser itself (`resume_parser.py`) is not among the provided
source files; only its README (configuration tables `COMMON_SKILLS` and
`SECTION_HEADERS`, the documented JSON output format) and the specification
are available.  The parser definitions below are therefore modelled from the
spec (sections 4.1-4.6, 6, 7) and from the README's configuration snippets.
The CareerFairAI React component is present in the sources and is embedded
directly.
-/

/-- Canonical section keys of the segmentation step (spec section 3,
`SectionMap`). -/
inductive SectionKey where
  | contact
  | education
  | experience
  | skills
  | unclassified
  deriving DecidableEq, Repr

/-- A section-header configuration table: an ordered association list from a
canonical section key to its header synonym strings.  The declaration order
of the entries is significant (spec section 4.2 tie-break). -/
abbrev SectionConfig := List (SectionKey × List String)

/-- The first list is an initial segment of the second. -/
def prefixMatch {α : Type} [DecidableEq α] : List α → List α → Bool
  | [], _ => true
  | _ :: _, [] => false
  | p :: ps, x :: xs => p = x && prefixMatch ps xs

/-- The first list occurs contiguously inside the second. -/
def infixMatch {α : Type} [DecidableEq α] (pat : List α) : List α → Bool
  | [] => prefixMatch pat []
  | x :: xs => prefixMatch pat (x :: xs) || infixMatch pat xs

/-- Split a character list at every separator character, keeping empty
pieces (worker with an accumulator held in reverse). -/
def splitByGo (p : Char → Bool) : List Char → List Char → List (List Char)
  | [], acc => [acc.reverse]
  | c :: cs, acc =>
    if p c then acc.reverse :: splitByGo p cs []
    else splitByGo p cs (c :: acc)

/-- Split a character list at every character satisfying the predicate. -/
def splitBy (p : Char → Bool) (cs : List Char) : List (List Char) :=
  splitByGo p cs []

/-- Remove leading and trailing whitespace characters. -/
def trimChars (cs : List Char) : List Char :=
  ((cs.dropWhile Char.isWhitespace).reverse.dropWhile Char.isWhitespace).reverse

/-- Lowercase every character of a string. -/
def lowerStr (s : String) : String :=
  ⟨s.data.map Char.toLower⟩

/-- Trim leading and trailing whitespace of a string. -/
def trimStr (s : String) : String :=
  ⟨trimChars s.data⟩

/-- Modelled from the spec: section 4.1 Text Normalizer.  Split the raw text
on newlines, trim every line, and drop the empty ones, preserving order.
`String.trim` also removes carriage returns, covering mixed line endings. -/
def normalizeText (raw : String) : List String :=
  ((splitBy (fun c => c = '\n') raw.data).map
      (fun cs => String.mk (trimChars cs))).filter (fun l => l ≠ "")

/-- The intermediate SectionMap of spec section 3: the ordered lines assigned
to each canonical section bucket. -/
structure SectionMap where
  contact : List String
  education : List String
  experience : List String
  skills : List String
  unclassified : List String
  deriving DecidableEq, Repr

/-- The empty SectionMap: every bucket empty. -/
def SectionMap.empty : SectionMap :=
  { contact := [], education := [], experience := [], skills := [],
    unclassified := [] }

/-- Append one line to the bucket named by the key. -/
def SectionMap.push (m : SectionMap) (k : SectionKey) (l : String) :
    SectionMap :=
  match k with
  | .contact => { m with contact := m.contact ++ [l] }
  | .education => { m with education := m.education ++ [l] }
  | .experience => { m with experience := m.experience ++ [l] }
  | .skills => { m with skills := m.skills ++ [l] }
  | .unclassified => { m with unclassified := m.unclassified ++ [l] }

/-- Modelled from the spec: section 4.2.  A line matches a header synonym if,
after case-insensitive normalization (trimming and lowercasing), it equals
the synonym string; equality with a short synonym entails the brevity
condition of the spec. -/
def lineMatchesHeader (syns : List String) (l : String) : Bool :=
  syns.any (fun h => lowerStr (trimStr l) = lowerStr h)

/-- Modelled from the spec: section 4.2 tie-break.  The canonical key of the
first configuration entry (in declaration order) whose synonyms the line
matches, if any. -/
def headerKey (cfg : SectionConfig) (l : String) : Option SectionKey :=
  (cfg.find? (fun e => lineMatchesHeader e.2 l)).map (fun e => e.1)

/-- Modelled from the spec: section 4.2 Section Segmenter main loop.  Scan
the lines in order; a header match switches the active bucket to the matched
canonical key (the header line itself is recorded in that bucket, so that no
line is dropped); every other line goes to the active bucket.  The active
bucket starts as `unclassified`. -/
def segmentGo (cfg : SectionConfig) :
    List String → SectionKey → SectionMap → SectionMap
  | [], _, m => m
  | l :: rest, active, m =>
    match headerKey cfg l with
    | some k => segmentGo cfg rest k (m.push k l)
    | none => segmentGo cfg rest active (m.push active l)

/-- Modelled from the spec: section 4.2.  Segment a normalized line sequence
into the SectionMap, starting in the `unclassified` bucket. -/
def segmentSections (cfg : SectionConfig) (lines : List String) : SectionMap :=
  segmentGo cfg lines .unclassified SectionMap.empty

/-- Total number of lines across all five buckets of a SectionMap. -/
def totalLines (m : SectionMap) : Nat :=
  m.contact.length + m.education.length + m.experience.length +
    m.skills.length + m.unclassified.length

theorem totalLines_push (m : SectionMap) (k : SectionKey) (l : String) :
    totalLines (m.push k l) = totalLines m + 1 := by
  cases k <;> simp [SectionMap.push, totalLines] <;> omega

theorem segmentGo_totalLines (cfg : SectionConfig) (ls : List String) :
    ∀ (k : SectionKey) (m : SectionMap),
      totalLines (segmentGo cfg ls k m) = totalLines m + ls.length := by
  induction ls with
  | nil => intro k m; simp [segmentGo]
  | cons l rest ih =>
    intro k m
    cases h : headerKey cfg l with
    | none => simp [segmentGo, h, ih, totalLines_push]; omega
    | some k₂ => simp [segmentGo, h, ih, totalLines_push]; omega

/-- C1: for every configuration and every input text, segmentation assigns
each normalized line to exactly one bucket: the total number of lines across
all buckets of the resulting SectionMap equals the number of normalized
input lines, so no line is duplicated and none is dropped. -/
theorem segment_preserves_line_count (cfg : SectionConfig) (text : String) :
    totalLines (segmentSections cfg (normalizeText text)) =
      (normalizeText text).length := by
  rw [segmentSections, segmentGo_totalLines]
  simp [totalLines, SectionMap.empty]

/-- True when the pattern occurs as a contiguous substring of the string. -/
def containsSub (s pat : String) : Bool :=
  infixMatch pat.data s.data

/-- Whitespace-separated words of a line. -/
def wordsOf (s : String) : List String :=
  ((splitBy (fun c => c = ' ') s.data).map String.mk).filter (fun w => w ≠ "")

/-- Lowercased alphanumeric tokens of a line (word-boundary tokenization of
spec section 4.4; `+` and `#` are kept so entries like a language name with
such marks stay one token). -/
def tokensOf (l : String) : List String :=
  ((splitBy (fun c => ¬ (c.isAlphanum || c = '+' || c = '#'))
      (lowerStr l).data).map String.mk).filter (fun t => t ≠ "")

/-- Modelled from the spec: section 4.3 email pattern.  A token is an email
when it splits on the at-sign into a non-empty local part and a domain with
at least two non-empty dot-separated labels. -/
def isEmailToken (t : String) : Bool :=
  match splitBy (fun c => c = '@') t.data with
  | [loc, dom] =>
    loc ≠ [] && (splitBy (fun c => c = '.') dom).length ≥ 2 &&
      (splitBy (fun c => c = '.') dom).all (fun p => p ≠ [])
  | _ => false

/-- First email-shaped token across the lines, scanning in order. -/
def findEmail (lines : List String) : Option String :=
  ((lines.map wordsOf).flatten).find? isEmailToken

/-- Characters tolerated inside a phone number (spec section 4.3). -/
def isPhoneChar (c : Char) : Bool :=
  c.isDigit || c = ' ' || c = '.' || c = '-' || c = '(' || c = ')' || c = '+'

/-- Number of digit characters in a string. -/
def digitCount (s : String) : Nat :=
  (s.data.filter Char.isDigit).length

/-- Modelled from the spec: section 4.3 phone pattern.  Maximal runs of
phone characters in a line; a run qualifies when its digit count is
consistent with a national number (7 to 15 digits). -/
def phoneRuns (l : String) : List String :=
  ((splitBy (fun c => ¬ isPhoneChar c) l.data).map
      (fun cs => String.mk (trimChars cs))).filter
    (fun r => 7 ≤ digitCount r && digitCount r ≤ 15)

/-- First qualifying phone run across the lines, scanning in order. -/
def findPhone (lines : List String) : Option String :=
  ((lines.map phoneRuns).flatten).head?

/-- Modelled from the spec: section 4.3.  First token containing the given
domain literal, case-insensitively. -/
def findUrl (dom : String) (lines : List String) : Option String :=
  ((lines.map wordsOf).flatten).find? (fun t => containsSub (lowerStr t) dom)

/-- Modelled from the spec: section 4.3 name heuristic.  A candidate name
line has no digits, no email or URL marks, and a bounded word count. -/
def isNameLine (l : String) : Bool :=
  !(l.data.any Char.isDigit) && !(containsSub l "@") &&
    !(containsSub (lowerStr l) "http") && !(containsSub (lowerStr l) "www.") &&
    !(containsSub (lowerStr l) ".com") &&
    1 ≤ (wordsOf l).length && (wordsOf l).length ≤ 4

/-- First candidate name line, if any. -/
def findName (lines : List String) : Option String :=
  lines.find? isNameLine

/-- Modelled from the spec: section 4.3 location pattern, a City, ST style
line: a comma-separated pair whose second part, after trimming, is exactly
two uppercase letters and whose first part is non-empty. -/
def isCityStLine (l : String) : Bool :=
  match splitBy (fun c => c = ',') l.data with
  | [city, st] =>
    city ≠ [] && (trimChars st).length = 2 &&
      (trimChars st).all Char.isUpper
  | _ => false

/-- Modelled from the spec: section 4.3.  The location is populated only
when a City, ST line immediately follows the candidate name line. -/
def findLocation : List String → Option String
  | l₁ :: l₂ :: rest =>
    if isNameLine l₁ then (if isCityStLine l₂ then some l₂ else none)
    else findLocation (l₂ :: rest)
  | _ => none

/-- ContactInfo record of spec section 3. -/
structure ContactInfo where
  name : Option String
  email : Option String
  phone : Option String
  linkedin : Option String
  github : Option String
  location : Option String
  deriving DecidableEq, Repr

/-- Modelled from the spec: section 4.3 Contact Extractor.  Works on the
`unclassified` bucket, or on the first few lines of the whole document when
that bucket is empty. -/
def extractContact (bucket : List String) (allLines : List String) :
    ContactInfo :=
  let src := if bucket.isEmpty then allLines.take 5 else bucket
  { name := findName src
    email := findEmail src
    phone := findPhone src
    linkedin := findUrl "linkedin.com" src
    github := findUrl "github.com" src
    location := findLocation src }

/-- Modelled from the spec: section 4.4 Skills Extractor.  A vocabulary
entry matches when its token sequence occurs contiguously in the token
sequence of some line; the output keeps the canonical configured casing of
the matched entries and removes duplicates. -/
def extractSkills (vocab : List String) (lines : List String) :
    List String :=
  (vocab.filter (fun v =>
    tokensOf v ≠ [] &&
      lines.any (fun l => infixMatch (tokensOf v) (tokensOf l)))).dedup

/-- The skill vocabulary, from the README's `COMMON_SKILLS` snippets and
its documented output example. -/
def COMMON_SKILLS : List String :=
  ["python", "java", "javascript", "react", "machine learning", "sql",
   "kotlin", "swift", "flutter"]

/-- The section-header synonym table, from the README's `SECTION_HEADERS`
snippet extended with the canonical keys the spec names (section 4.2). -/
def SECTION_HEADERS : SectionConfig :=
  [(.experience, ["experience", "work history", "employment"]),
   (.education, ["education", "academic background"]),
   (.skills, ["skills", "technical skills"]),
   (.contact, ["contact", "contact information"])]

/-- Modelled from the spec: section 4.5 degree-keyword pattern. -/
def isDegreeLine (l : String) : Bool :=
  let s := lowerStr l
  containsSub s "bachelor" || containsSub s "master" ||
    containsSub s "b.s." || containsSub s "m.s." ||
    containsSub s "phd" || containsSub s "ph.d" ||
    containsSub s "associate" || containsSub s "doctor"

/-- Numeric value of a run of digit characters. -/
def natOfDigits (cs : List Char) : Nat :=
  cs.foldl (fun acc c => 10 * acc + (c.toNat - 48)) 0

/-- Modelled from the spec: section 4.5 year pattern, a 4-digit token in a
plausible year range. -/
def isYearToken (t : String) : Bool :=
  t.data.length = 4 && t.data.all Char.isDigit &&
    1900 ≤ natOfDigits t.data && natOfDigits t.data ≤ 2099

/-- First plausible 4-digit year token of a line, if any. -/
def yearOf (l : String) : Option String :=
  (tokensOf l).find? isYearToken

/-- Tokens of a line for GPA matching: the dot must survive tokenization. -/
def gpaTokensOf (l : String) : List String :=
  ((splitBy (fun c => ¬ (c.isAlphanum || c = '.')) l.data).map
      String.mk).filter (fun t => t ≠ "")

/-- Modelled from the spec: section 4.5 GPA pattern, digits dot digits with
a value at most 5.0 (covering both the 4.0 and the 5.0 scales). -/
def isGpaToken (t : String) : Bool :=
  match splitBy (fun c => c = '.') t.data with
  | [a, b] =>
    a ≠ [] && b ≠ [] && a.all Char.isDigit && b.all Char.isDigit &&
      (natOfDigits a < 5 || (natOfDigits a = 5 && b.all (fun c => c = '0')))
  | _ => false

/-- First GPA-shaped token of a line, if any. -/
def gpaOf (l : String) : Option String :=
  (gpaTokensOf l).find? isGpaToken

/-- The line contains at least one letter. -/
def hasLetter (l : String) : Bool :=
  l.data.any Char.isAlpha

/-- EducationEntry record of spec section 3. -/
structure EducationEntry where
  degree : Option String
  institution : Option String
  year : Option String
  gpa : Option String
  deriving DecidableEq, Repr

/-- Modelled from the spec: section 4.5 entry grouping.  A new entry starts
when a line matches the degree-keyword pattern while the entry being built
already holds a degree line. -/
def eduGroupsGo : List String → List String → List (List String)
  | [], cur => if cur.isEmpty then [] else [cur]
  | l :: rest, cur =>
    if isDegreeLine l && cur.any isDegreeLine then cur :: eduGroupsGo rest [l]
    else eduGroupsGo rest (cur ++ [l])

/-- Modelled from the spec: section 4.5 per-entry field assignment.  First
degree-keyword line is the degree; the first year token and the first GPA
token scanning the lines in order give `year` and `gpa`; the first line with
letters that carries none of those roles is the institution. -/
def extractEduEntry (g : List String) : EducationEntry :=
  { degree := g.find? isDegreeLine
    institution := g.find? (fun l =>
      hasLetter l && !(isDegreeLine l) && (yearOf l).isNone &&
        (gpaOf l).isNone)
    year := g.findSome? yearOf
    gpa := g.findSome? gpaOf }

/-- Modelled from the spec: section 4.5 Education Extractor.  Entries are
the grouped blocks in source order; an empty bucket yields no entry. -/
def extractEducation (bucket : List String) : List EducationEntry :=
  (eduGroupsGo bucket []).map extractEduEntry

/-- Month-name tokens recognised inside date ranges. -/
def MONTHS : List String :=
  ["jan", "january", "feb", "february", "mar", "march", "apr", "april",
   "may", "jun", "june", "jul", "july", "aug", "august", "sep", "sept",
   "september", "oct", "october", "nov", "november", "dec", "december"]

/-- A token that can take part in a date range: a plausible year, a month
name, or the word present. -/
def isDateToken (t : String) : Bool :=
  isYearToken t || MONTHS.contains t || t = "present"

/-- Modelled from the spec: section 4.6 date-range pattern.  A duration line
holds at least two date-like tokens together with a dash or a to or the word
present separating them. -/
def isDurationLine (l : String) : Bool :=
  let toks := tokensOf l
  (toks.filter isDateToken).length ≥ 2 &&
    (l.data.contains '-' || toks.contains "to" || toks.contains "present")

/-- Modelled from the spec: section 4.6, a short phrase line (bounded word
count), as used for title and company candidates. -/
def isShortLine (l : String) : Bool :=
  1 ≤ (wordsOf l).length && (wordsOf l).length ≤ 5

/-- Modelled from the spec: section 4.6 entry grouping.  A new entry starts
on a duration line, or one line earlier when a short non-duration line
immediately precedes the duration line (that line is the title candidate of
the new entry, spec section 4.6). -/
def expGroupsGo : List String → List String → List (List String)
  | [], cur => if cur.isEmpty then [] else [cur]
  | [l], cur =>
    if isDurationLine l then (if cur.isEmpty then [[l]] else [cur, [l]])
    else [cur ++ [l]]
  | l₁ :: l₂ :: rest, cur =>
    if !(isDurationLine l₁) && isShortLine l₁ && isDurationLine l₂ then
      (if cur.isEmpty then [] else [cur]) ++ expGroupsGo rest [l₁, l₂]
    else if isDurationLine l₁ then
      (if cur.isEmpty then [] else [cur]) ++ expGroupsGo (l₂ :: rest) [l₁]
    else
      expGroupsGo (l₂ :: rest) (cur ++ [l₁])

/-- ExperienceEntry record of spec section 3. -/
structure ExperienceEntry where
  title : Option String
  company : Option String
  duration : Option String
  description : Option String
  deriving DecidableEq, Repr

/-- Concatenate lines with single spaces, preserving order. -/
def joinWithSpace : List String → String
  | [] => ""
  | [l] => l
  | l :: rest => l ++ " " ++ joinWithSpace rest

/-- Index of the first element satisfying the predicate, if any. -/
def firstIdx {α : Type} (p : α → Bool) : List α → Option Nat
  | [] => none
  | a :: as => if p a then some 0 else (firstIdx p as).map (fun i => i + 1)

/-- Modelled from the spec: section 4.6 per-entry field assignment.  The
first duration-pattern line gives `duration`; the short line immediately
before it gives `title`; the short non-duration line immediately after it
gives `company`; all remaining lines, concatenated in order, give
`description`.  An entry with no duration line keeps its whole block as
`description`, so unmatched work history is not dropped. -/
def extractExpEntry (g : List String) : ExperienceEntry :=
  match firstIdx isDurationLine g with
  | some d =>
    let title : Option String :=
      match g[d - 1]? with
      | some t => if 1 ≤ d && isShortLine t then some t else none
      | none => none
    let company : Option String :=
      match g[d + 1]? with
      | some c => if isShortLine c && !(isDurationLine c) then some c else none
      | none => none
    let assigned : List Nat :=
      [d] ++ (if title.isSome then [d - 1] else []) ++
        (if company.isSome then [d + 1] else [])
    let rest := (g.enum.filter (fun p => !(assigned.contains p.1))).map
      (fun p => p.2)
    { title := title, company := company, duration := g[d]?
      description := if rest.isEmpty then none else some (joinWithSpace rest) }
  | none =>
    { title := none, company := none, duration := none
      description := if g.isEmpty then none else some (joinWithSpace g) }

/-- Modelled from the spec: section 4.6 Experience Extractor.  Entries are
the grouped blocks in source order. -/
def extractExperience (bucket : List String) : List ExperienceEntry :=
  (expGroupsGo bucket []).map extractExpEntry

/-- ParsedResume, the output aggregate of spec section 3. -/
structure ParsedResume where
  contact : ContactInfo
  skills : List String
  education : List EducationEntry
  experience : List ExperienceEntry
  deriving DecidableEq, Repr

/-- Modelled from the spec: sections 2 and 4, the full parse pipeline: the
extractor is a pure function of the input text and the two configuration
tables. -/
def parse (cfg : SectionConfig) (vocab : List String) (text : String) :
    ParsedResume :=
  let lines := normalizeText text
  let secs := segmentSections cfg lines
  { contact := extractContact secs.unclassified lines
    skills := extractSkills vocab (secs.skills ++ lines)
    education := extractEducation secs.education
    experience := extractExperience secs.experience }

/-- The all-unset ParsedResume (spec section 7, EmptyInputError case). -/
def emptyResume : ParsedResume :=
  { contact := { name := none, email := none, phone := none, linkedin := none,
                 github := none, location := none }
    skills := [], education := [], experience := [] }

/-- Modelled from the spec: section 5, batch processing runs one independent
parse per document. -/
def parseBatch (cfg : SectionConfig) (vocab : List String)
    (docs : List String) : List ParsedResume :=
  docs.map (parse cfg vocab)

/-- Shallow JSON values, enough for the documented output schema of spec
section 6: null, strings, arrays, and objects with ordered fields. -/
inductive Json where
  | null : Json
  | str : String → Json
  | arr : List Json → Json
  | obj : List (String × Json) → Json

/-- An optional field serializes to null when absent, never to an omitted
key (spec section 6). -/
def optStr : Option String → Json
  | none => .null
  | some s => .str s

/-- Modelled from the spec: section 6 JSON schema, the nested contact
object with its six field names always present. -/
def serializeContact (c : ContactInfo) : Json :=
  .obj [("name", optStr c.name), ("email", optStr c.email),
        ("phone", optStr c.phone), ("linkedin", optStr c.linkedin),
        ("github", optStr c.github), ("location", optStr c.location)]

/-- Modelled from the spec: section 6 JSON schema, one education object. -/
def serializeEdu (e : EducationEntry) : Json :=
  .obj [("degree", optStr e.degree), ("institution", optStr e.institution),
        ("year", optStr e.year), ("gpa", optStr e.gpa)]

/-- Modelled from the spec: section 6 JSON schema, one experience object. -/
def serializeExp (e : ExperienceEntry) : Json :=
  .obj [("title", optStr e.title), ("company", optStr e.company),
        ("duration", optStr e.duration), ("description", optStr e.description)]

/-- Modelled from the spec: section 6 JSON schema, the full ParsedResume
document with its four top-level keys. -/
def serializeResume (r : ParsedResume) : Json :=
  .obj [("contact", serializeContact r.contact),
        ("skills", .arr (r.skills.map .str)),
        ("education", .arr (r.education.map serializeEdu)),
        ("experience", .arr (r.experience.map serializeExp))]

/-- Value of the named field of a JSON object field list, if present. -/
def getField (fields : List (String × Json)) (k : String) : Option Json :=
  (fields.find? (fun e => e.1 == k)).map (fun e => e.2)

/-- Read an optional string field back: null becomes absent. -/
def asOptStr : Json → Option (Option String)
  | .null => some none
  | .str s => some (some s)
  | _ => none

/-- Read a mandatory string back. -/
def asStr : Json → Option String
  | .str s => some s
  | _ => none

/-- Traverse a list under the Option monad. -/
def optMapM {α β : Type} (f : α → Option β) : List α → Option (List β)
  | [] => some []
  | a :: as =>
    match f a, optMapM f as with
    | some b, some bs => some (b :: bs)
    | _, _ => none

/-- Modelled from the spec: section 8 round-trip, reading a contact object
of the documented schema back. -/
def deserializeContact (j : Json) : Option ContactInfo :=
  match j with
  | .obj fs =>
    match (getField fs "name").bind asOptStr,
        (getField fs "email").bind asOptStr,
        (getField fs "phone").bind asOptStr,
        (getField fs "linkedin").bind asOptStr,
        (getField fs "github").bind asOptStr,
        (getField fs "location").bind asOptStr with
    | some n, some e, some p, some li, some g, some lo =>
      some { name := n, email := e, phone := p, linkedin := li, github := g,
             location := lo }
    | _, _, _, _, _, _ => none
  | _ => none

/-- Modelled from the spec: section 8 round-trip, reading one education
object back. -/
def deserializeEdu (j : Json) : Option EducationEntry :=
  match j with
  | .obj fs =>
    match (getField fs "degree").bind asOptStr,
        (getField fs "institution").bind asOptStr,
        (getField fs "year").bind asOptStr,
        (getField fs "gpa").bind asOptStr with
    | some d, some i, some y, some g =>
      some { degree := d, institution := i, year := y, gpa := g }
    | _, _, _, _ => none
  | _ => none

/-- Modelled from the spec: section 8 round-trip, reading one experience
object back. -/
def deserializeExp (j : Json) : Option ExperienceEntry :=
  match j with
  | .obj fs =>
    match (getField fs "title").bind asOptStr,
        (getField fs "company").bind asOptStr,
        (getField fs "duration").bind asOptStr,
        (getField fs "description").bind asOptStr with
    | some t, some c, some d, some de =>
      some { title := t, company := c, duration := d, description := de }
    | _, _, _, _ => none
  | _ => none

/-- Read a JSON array of strings back. -/
def asStrArr : Json → Option (List String)
  | .arr l => optMapM asStr l
  | _ => none

/-- Read a JSON array of education objects back. -/
def asEduArr : Json → Option (List EducationEntry)
  | .arr l => optMapM deserializeEdu l
  | _ => none

/-- Read a JSON array of experience objects back. -/
def asExpArr : Json → Option (List ExperienceEntry)
  | .arr l => optMapM deserializeExp l
  | _ => none

/-- Modelled from the spec: section 8 round-trip, reading a full
ParsedResume document of the documented schema back. -/
def deserializeResume (j : Json) : Option ParsedResume :=
  match j with
  | .obj fs =>
    match (getField fs "contact").bind deserializeContact,
        (getField fs "skills").bind asStrArr,
        (getField fs "education").bind asEduArr,
        (getField fs "experience").bind asExpArr with
    | some c, some s, some ed, some ex =>
      some { contact := c, skills := s, education := ed, experience := ex }
    | _, _, _, _ => none
  | _ => none

/-- Field names of a JSON object, in order; other values have none. -/
def jsonKeys : Json → List String
  | .obj fs => fs.map (fun e => e.1)
  | _ => []

/-- The two hard-coded company matches of the CareerFairAI page (the
rendered Best Company Matches list, source lines 55-65). -/
def companyMatches : List (String × String) :=
  [("Snowflake Inc.", "Looking for: Data Science Interns, Python, SQL"),
   ("Microsoft", "Looking for: Software Engineering Interns, React, Cloud")]

/-- The two hard-coded talking points of the CareerFairAI page (the
rendered AI-Generated Talking Points list, source lines 69-84). -/
def talkingPoints : List String :=
  ["Mention your Python data analysis project and ask about Snowflake\x27s data pipeline team.",
   "Highlight your React experience and interest in scalable frontend systems at Microsoft."]

/-- The initial value of the only component state, the `resumeUploaded`
boolean from `useState(false)` in the CareerFairAI source. -/
def initialResumeUploaded : Bool := false

/-- The Upload Resume button handler, `() => setResumeUploaded(true)`: it
sets the boolean and reads no file; any resume content the user holds is
modelled as an explicit argument that the handler ignores, exactly as the
source ignores it. -/
def uploadClick (_ : Bool) (_ : String) : Bool := true

/-- The results block of the CareerFairAI page: rendered only when
`resumeUploaded` is true, and then always the same two hard-coded lists. -/
def renderResults (resumeUploaded : Bool) :
    Option (List (String × String) × List String) :=
  if resumeUploaded then some (companyMatches, talkingPoints) else none

/-- One use of the page: a sequence of upload clicks, each carrying the
resume content the user selected, folded over the component state. -/
def runSession (uploads : List String) : Bool :=
  uploads.foldl uploadClick initialResumeUploaded

/-- C2: an input whose raw text is empty or normalizes to zero lines parses
to the ParsedResume with every field unset or empty; the extractor is a
total function of the text, so no error is raised on any valid text input. -/
theorem parse_empty_input (cfg : SectionConfig) (vocab : List String)
    (text : String) (h : normalizeText text = []) :
    parse cfg vocab text = emptyResume := by
  simp [parse, h, segmentSections, segmentGo, SectionMap.empty,
    extractContact, extractSkills, extractEducation, extractExperience,
    eduGroupsGo, expGroupsGo, findName, findEmail, findPhone, findUrl,
    findLocation, emptyResume]

/-- Witness for C2 at a whitespace-only input. -/
theorem parse_empty_input_witness :
    normalizeText " \n  \n" = [] ∧
      parse SECTION_HEADERS COMMON_SKILLS " \n  \n" = emptyResume :=
  ⟨by decide, parse_empty_input SECTION_HEADERS COMMON_SKILLS " \n  \n"
    (by decide)⟩

/-- C4: parsing is deterministic and stateless.  Two invocations of parse
on the same text and the same configuration tables give identical output,
and inside a batch the result for a document depends only on that document,
not on the other documents processed before or after it. -/
theorem parse_deterministic (cfg : SectionConfig) (vocab : List String)
    (t₁ t₂ : String) (pre post : List String) (h : t₁ = t₂) :
    parse cfg vocab t₁ = parse cfg vocab t₂ ∧
      (parseBatch cfg vocab (pre ++ t₁ :: post))[pre.length]? =
        some (parse cfg vocab t₂) := by
  subst h
  refine ⟨rfl, ?_⟩
  rw [parseBatch, List.map_append]
  rw [List.getElem?_append_right (by simp)]
  simp

/-- Witness for C4 at a concrete document surrounded by two other batch
documents. -/
theorem parse_deterministic_witness :
    parse SECTION_HEADERS COMMON_SKILLS "Skills\nPython" =
        parse SECTION_HEADERS COMMON_SKILLS "Skills\nPython" ∧
      (parseBatch SECTION_HEADERS COMMON_SKILLS
          (["doc before"] ++ "Skills\nPython" :: ["doc after"]))[
            (["doc before"] : List String).length]? =
        some (parse SECTION_HEADERS COMMON_SKILLS "Skills\nPython") :=
  parse_deterministic SECTION_HEADERS COMMON_SKILLS "Skills\nPython"
    "Skills\nPython" ["doc before"] ["doc after"] rfl

/-- C5: JSON serialization emits every field name of the schema for every
ParsedResume: the top-level keys, the six contact keys, and the four keys of
every education and experience object are always present, and an absent
optional field serializes as an explicit null value. -/
theorem serialize_stable_schema (r : ParsedResume) (e : EducationEntry)
    (x : ExperienceEntry) :
    jsonKeys (serializeResume r) =
        ["contact", "skills", "education", "experience"] ∧
      jsonKeys (serializeContact r.contact) =
        ["name", "email", "phone", "linkedin", "github", "location"] ∧
      jsonKeys (serializeEdu e) = ["degree", "institution", "year", "gpa"] ∧
      jsonKeys (serializeExp x) =
        ["title", "company", "duration", "description"] ∧
      optStr none = Json.null :=
  ⟨rfl, rfl, rfl, rfl, rfl⟩

theorem foldl_uploadClick_true (us : List String) :
    us.foldl uploadClick true = true := by
  induction us with
  | nil => rfl
  | cons v vs ih => rw [List.foldl_cons]; exact ih

theorem runSession_of_ne_nil (uploads : List String)
    (h : uploads ≠ []) : runSession uploads = true := by
  cases uploads with
  | nil => exact absurd rfl h
  | cons u us =>
    rw [runSession, List.foldl_cons]
    exact foldl_uploadClick_true us

/-- C10: the CareerFairAI page renders fixed constant company matches and
talking points.  Any two uses of the page that uploaded a resume display
identical results, whatever resume content was uploaded, and those results
are exactly the hard-coded lists: the upload button only flips a boolean,
and no resume data is ever read by the component. -/
theorem careerFairAI_results_static (uploads₁ uploads₂ : List String)
    (h₁ : uploads₁ ≠ []) (h₂ : uploads₂ ≠ []) :
    renderResults (runSession uploads₁) =
        renderResults (runSession uploads₂) ∧
      renderResults (runSession uploads₁) =
        some (companyMatches, talkingPoints) := by
  rw [runSession_of_ne_nil uploads₁ h₁, runSession_of_ne_nil uploads₂ h₂]
  exact ⟨rfl, rfl⟩

/-- Witness for C10 at two sessions uploading different resume contents. -/
theorem careerFairAI_results_static_witness :
    renderResults (runSession ["resume of candidate A"]) =
        renderResults (runSession ["resume of candidate B", "second try"]) ∧
      renderResults (runSession ["resume of candidate A"]) =
        some (companyMatches, talkingPoints) :=
  careerFairAI_results_static ["resume of candidate A"]
    ["resume of candidate B", "second try"] (by decide) (by decide)

/-- C3: the skills extractor is a closed-vocabulary match.  For every
vocabulary and every input, the output is duplicate-free and every element
is an entry of the vocabulary in its canonical configured casing; and on the
skills bucket "Python, JavaScript, React, Machine Learning" with the
configured vocabulary it returns exactly those four entries,
case-normalized. -/
theorem extractSkills_closed_vocabulary :
    (∀ (vocab lines : List String),
      (extractSkills vocab lines).Nodup ∧ extractSkills vocab lines ⊆ vocab) ∧
      extractSkills COMMON_SKILLS
          ["Python, JavaScript, React, Machine Learning"] =
        ["python", "javascript", "react", "machine learning"] := by
  constructor
  · intro vocab lines
    refine ⟨List.nodup_dedup _, ?_⟩
    intro s hs
    exact List.mem_of_mem_filter (List.dedup_subset _ hs)
  · decide

theorem headerKey_append_of_no_match (pre rest : SectionConfig) (l : String)
    (h : ∀ e ∈ pre, lineMatchesHeader e.2 l = false) :
    headerKey (pre ++ rest) l = headerKey rest l := by
  simp only [headerKey]
  induction pre with
  | nil => simp
  | cons e p ih =>
    rw [List.cons_append, List.find?_cons_of_neg]
    · exact ih (fun x hx => h x (List.mem_cons_of_mem e hx))
    · simp [h e (List.mem_cons_self e p)]

theorem headerKey_cons_of_match (k : SectionKey) (s : List String)
    (rest : SectionConfig) (l : String)
    (h : lineMatchesHeader s l = true) :
    headerKey ((k, s) :: rest) l = some k := by
  simp only [headerKey]
  rw [List.find?_cons_of_pos]
  · rfl
  · exact h

/-- C7: configuration-order precedence of the segmenter.  When a line
matches the synonyms of two different canonical sections, the key declared
earliest in the configuration table wins: the header decision returns the
earlier key, and segmenting that line puts it in the earlier key's
bucket. -/
theorem segment_tiebreak_earliest (pre mid post : SectionConfig)
    (k₁ k₂ : SectionKey) (s₁ s₂ : List String) (l : String)
    (hpre : ∀ e ∈ pre, lineMatchesHeader e.2 l = false)
    (h₁ : lineMatchesHeader s₁ l = true)
    (h₂ : lineMatchesHeader s₂ l = true)
    (hne : k₁ ≠ k₂) :
    headerKey (pre ++ ((k₁, s₁) :: (mid ++ (k₂, s₂) :: post))) l = some k₁ ∧
      segmentSections (pre ++ ((k₁, s₁) :: (mid ++ (k₂, s₂) :: post))) [l] =
        SectionMap.empty.push k₁ l := by
  have hk : headerKey (pre ++ ((k₁, s₁) :: (mid ++ (k₂, s₂) :: post))) l =
      some k₁ := by
    rw [headerKey_append_of_no_match pre _ l hpre]
    exact headerKey_cons_of_match k₁ s₁ _ l h₁
  refine ⟨hk, ?_⟩
  simp [segmentSections, segmentGo, hk]

/-- Witness for C7: the line Experience matches a synonym of both the
experience section and a later-declared education section; the
earlier-declared experience key wins. -/
theorem segment_tiebreak_earliest_witness :
    headerKey ([(SectionKey.contact, ["contact"])] ++
        ((SectionKey.experience, ["experience", "work history"]) ::
          ([] ++ (SectionKey.education,
            ["experience", "academic background"]) :: []))) "Experience" =
      some SectionKey.experience ∧
      segmentSections ([(SectionKey.contact, ["contact"])] ++
          ((SectionKey.experience, ["experience", "work history"]) ::
            ([] ++ (SectionKey.education,
              ["experience", "academic background"]) :: []))) ["Experience"] =
        SectionMap.empty.push SectionKey.experience "Experience" :=
  segment_tiebreak_earliest [(SectionKey.contact, ["contact"])] [] []
    SectionKey.experience SectionKey.education
    ["experience", "work history"] ["experience", "academic background"]
    "Experience" (by decide) (by decide) (by decide) (by decide)

theorem deserializeContact_serializeContact (c : ContactInfo) :
    deserializeContact (serializeContact c) = some c := by
  rcases c with ⟨n, e, p, li, g, lo⟩
  cases n <;> cases e <;> cases p <;> cases li <;> cases g <;> cases lo <;>
    rfl

theorem deserializeEdu_serializeEdu (e : EducationEntry) :
    deserializeEdu (serializeEdu e) = some e := by
  rcases e with ⟨d, i, y, g⟩
  cases d <;> cases i <;> cases y <;> cases g <;> rfl

theorem deserializeExp_serializeExp (e : ExperienceEntry) :
    deserializeExp (serializeExp e) = some e := by
  rcases e with ⟨t, c, d, de⟩
  cases t <;> cases c <;> cases d <;> cases de <;> rfl

theorem optMapM_asStr (l : List String) :
    optMapM asStr (l.map Json.str) = some l := by
  induction l with
  | nil => rfl
  | cons a as ih => simp [optMapM, asStr, ih]

theorem optMapM_edu (l : List EducationEntry) :
    optMapM deserializeEdu (l.map serializeEdu) = some l := by
  induction l with
  | nil => rfl
  | cons a as ih => simp [optMapM, deserializeEdu_serializeEdu, ih]

theorem optMapM_exp (l : List ExperienceEntry) :
    optMapM deserializeExp (l.map serializeExp) = some l := by
  induction l with
  | nil => rfl
  | cons a as ih => simp [optMapM, deserializeExp_serializeExp, ih]

/-- C6: round-trip.  Serializing any ParsedResume to the documented JSON
schema and deserializing the result reconstructs a ParsedResume equal to
the original. -/
theorem serializeResume_roundtrip (r : ParsedResume) :
    deserializeResume (serializeResume r) = some r := by
  rcases r with ⟨c, s, ed, ex⟩
  simp [serializeResume, deserializeResume, getField, asStrArr, asEduArr,
    asExpArr, deserializeContact_serializeContact, optMapM_asStr,
    optMapM_edu, optMapM_exp]

/-- C8: the education extractor splits a bucket holding two degree blocks,
each with its own degree-keyword line and its own distinct plausible 4-digit
year, into exactly two EducationEntry values in source order, each carrying
the year of its own block and not the other's; and an empty education
bucket yields no entry. -/
theorem extractEducation_two_blocks (y₁ y₂ : String)
    (hy₁ : yearOf y₁ = some y₁) (hy₂ : yearOf y₂ = some y₂)
    (hd₁ : isDegreeLine y₁ = false) (hd₂ : isDegreeLine y₂ = false)
    (hg₁ : gpaOf y₁ = none) (hg₂ : gpaOf y₂ = none)
    (hne : y₁ ≠ y₂) :
    extractEducation ["Bachelor of Science in Computer Science",
        "Massachusetts Institute of Technology", y₁,
        "Master of Science in Engineering", "Stanford University", y₂] =
      [{ degree := some "Bachelor of Science in Computer Science",
         institution := some "Massachusetts Institute of Technology",
         year := some y₁, gpa := none },
       { degree := some "Master of Science in Engineering",
         institution := some "Stanford University",
         year := some y₂, gpa := none }] ∧
      extractEducation [] = [] := by
  have hB : isDegreeLine "Bachelor of Science in Computer Science" = true :=
    by decide
  have hMIT : isDegreeLine "Massachusetts Institute of Technology" = false :=
    by decide
  have hM : isDegreeLine "Master of Science in Engineering" = true := by
    decide
  have hSt : isDegreeLine "Stanford University" = false := by decide
  have yB : yearOf "Bachelor of Science in Computer Science" = none := by
    decide
  have yMIT : yearOf "Massachusetts Institute of Technology" = none := by
    decide
  have yM : yearOf "Master of Science in Engineering" = none := by decide
  have ySt : yearOf "Stanford University" = none := by decide
  have gB : gpaOf "Bachelor of Science in Computer Science" = none := by
    decide
  have gMIT : gpaOf "Massachusetts Institute of Technology" = none := by
    decide
  have gM : gpaOf "Master of Science in Engineering" = none := by decide
  have gSt : gpaOf "Stanford University" = none := by decide
  have hlMIT : hasLetter "Massachusetts Institute of Technology" = true := by
    decide
  have hlSt : hasLetter "Stanford University" = true := by decide
  refine ⟨?_, rfl⟩
  simp [extractEducation, eduGroupsGo, extractEduEntry, hB, hMIT, hM, hSt,
    yB, yMIT, yM, ySt, gB, gMIT, gM, gSt, hlMIT, hlSt, hy₁, hy₂, hd₁, hd₂,
    hg₁, hg₂, List.findSome?]

/-- Witness for C8 at the years 2018 and 2020. -/
theorem extractEducation_two_blocks_witness :
    extractEducation ["Bachelor of Science in Computer Science",
        "Massachusetts Institute of Technology", "2018",
        "Master of Science in Engineering", "Stanford University", "2020"] =
      [{ degree := some "Bachelor of Science in Computer Science",
         institution := some "Massachusetts Institute of Technology",
         year := some "2018", gpa := none },
       { degree := some "Master of Science in Engineering",
         institution := some "Stanford University",
         year := some "2020", gpa := none }] ∧
      extractEducation [] = [] :=
  extractEducation_two_blocks "2018" "2020" (by decide) (by decide)
    (by decide) (by decide) (by decide) (by decide) (by decide)

theorem firstIdx_eq_none {α : Type} (p : α → Bool) (ls : List α)
    (h : ∀ a ∈ ls, p a = false) : firstIdx p ls = none := by
  induction ls with
  | nil => rfl
  | cons a as ih =>
    simp [firstIdx, h a (List.mem_cons_self a as),
      ih (fun x hx => h x (List.mem_cons_of_mem a hx))]

theorem expGroupsGo_no_duration (ls : List String) :
    ∀ (cur : List String), cur ≠ [] ∨ ls ≠ [] →
      (∀ l ∈ ls, isDurationLine l = false) →
      expGroupsGo ls cur = [cur ++ ls] := by
  induction ls with
  | nil =>
    intro cur h _
    have hc : cur ≠ [] := h.resolve_right (fun hn => hn rfl)
    cases cur with
    | nil => exact absurd rfl hc
    | cons c cs => simp [expGroupsGo]
  | cons l₁ ls' ih =>
    intro cur h hnd
    have h1 : isDurationLine l₁ = false := hnd l₁ (List.mem_cons_self l₁ ls')
    cases ls' with
    | nil => simp [expGroupsGo, h1]
    | cons l₂ rest =>
      have h2 : isDurationLine l₂ = false :=
        hnd l₂ (List.mem_cons_of_mem l₁ (List.mem_cons_self l₂ rest))
      have ih₂ := ih (cur ++ [l₁]) (Or.inl (by simp))
        (fun x hx => hnd x (List.mem_cons_of_mem l₁ hx))
      simp only [expGroupsGo, h1, h2, Bool.and_false, Bool.false_and,
        Bool.not_false, if_false]
      rw [ih₂]
      simp

theorem expGroupsGo_extends (post : List String) :
    ∀ (cur : List String), cur ≠ [] →
      ∃ suffix more, expGroupsGo post cur = (cur ++ suffix) :: more := by
  induction post with
  | nil =>
    intro cur hc
    cases cur with
    | nil => exact absurd rfl hc
    | cons c cs => exact ⟨[], [], by simp [expGroupsGo]⟩
  | cons l₁ ls' ih =>
    intro cur hc
    have hemp : cur.isEmpty = false := by
      cases cur with
      | nil => exact absurd rfl hc
      | cons c cs => rfl
    cases ls' with
    | nil =>
      cases hx : isDurationLine l₁ with
      | true => exact ⟨[], [[l₁]], by simp [expGroupsGo, hx, hemp]⟩
      | false => exact ⟨[l₁], [], by simp [expGroupsGo, hx, hemp]⟩
    | cons l₂ rest =>
      cases hb1 :
          (!(isDurationLine l₁) && isShortLine l₁ && isDurationLine l₂) with
      | true =>
        exact ⟨[], expGroupsGo rest [l₁, l₂],
          by simp [expGroupsGo, hb1, hemp]⟩
      | false =>
        cases hx : isDurationLine l₁ with
        | true =>
          exact ⟨[], expGroupsGo (l₂ :: rest) [l₁],
            by simp [expGroupsGo, hb1, hx, hemp]⟩
        | false =>
          obtain ⟨suffix, more, heq⟩ := ih (cur ++ [l₁]) (by simp)
          refine ⟨l₁ :: suffix, more, ?_⟩
          have hsd : (isShortLine l₁ && isDurationLine l₂) = false := by
            rw [hx] at hb1
            simpa using hb1
          simp only [expGroupsGo, hx, hsd, Bool.not_false, Bool.true_and,
            Bool.false_eq_true, if_false]
          rw [heq]
          simp

theorem expGroupsGo_reaches_base (t d : String) (post : List String)
    (ht : isDurationLine t = false) (hs : isShortLine t = true)
    (hd : isDurationLine d = true) (cur : List String) :
    ∃ gs₁ suffix gs₂,
      expGroupsGo (t :: d :: post) cur =
        gs₁ ++ ((t :: d :: suffix) :: gs₂) := by
  obtain ⟨suffix, more, heq⟩ := expGroupsGo_extends post [t, d] (by simp)
  refine ⟨if cur.isEmpty then [] else [cur], suffix, more, ?_⟩
  rw [expGroupsGo.eq_3, ht, hs, hd]
  simp only [Bool.not_false, Bool.true_and, Bool.and_self, if_true]
  rw [heq]
  simp

theorem expGroupsGo_reaches (t d : String) (post : List String)
    (ht : isDurationLine t = false) (hs : isShortLine t = true)
    (hd : isDurationLine d = true) :
    ∀ (n : Nat) (pre : List String), pre.length ≤ n → ∀ (cur : List String),
      ∃ gs₁ suffix gs₂,
        expGroupsGo (pre ++ t :: d :: post) cur =
          gs₁ ++ ((t :: d :: suffix) :: gs₂) := by
  intro n
  induction n with
  | zero =>
    intro pre hlen cur
    have hpre : pre = [] := by
      cases pre with
      | nil => rfl
      | cons a as => simp at hlen
    subst hpre
    simpa using expGroupsGo_reaches_base t d post ht hs hd cur
  | succ n ih =>
    intro pre hlen cur
    cases pre with
    | nil => simpa using expGroupsGo_reaches_base t d post ht hs hd cur
    | cons x pre' =>
      rw [List.cons_append]
      cases pre' with
      | nil =>
        cases hx : isDurationLine x with
        | true =>
          obtain ⟨gs₁, suffix, gs₂, heq⟩ :=
            expGroupsGo_reaches_base t d post ht hs hd [x]
          refine ⟨(if cur.isEmpty then [] else [cur]) ++ gs₁, suffix, gs₂,
            ?_⟩
          rw [List.nil_append, expGroupsGo.eq_3, ht, hx]
          simp [heq, List.append_assoc]
        | false =>
          obtain ⟨gs₁, suffix, gs₂, heq⟩ :=
            expGroupsGo_reaches_base t d post ht hs hd (cur ++ [x])
          refine ⟨gs₁, suffix, gs₂, ?_⟩
          rw [List.nil_append, expGroupsGo.eq_3, ht, hx]
          simp [heq]
      | cons p pre'' =>
        rw [List.cons_append]
        cases hb1 :
            (!(isDurationLine x) && isShortLine x && isDurationLine p) with
        | true =>
          obtain ⟨gs₁, suffix, gs₂, heq⟩ :=
            ih pre'' (by simp at hlen; omega) [x, p]
          refine ⟨(if cur.isEmpty then [] else [cur]) ++ gs₁, suffix, gs₂,
            ?_⟩
          rw [expGroupsGo.eq_3, hb1]
          simp [heq, List.append_assoc]
        | false =>
          cases hx : isDurationLine x with
          | true =>
            obtain ⟨gs₁, suffix, gs₂, heq⟩ :=
              ih (p :: pre'') (by simp at hlen ⊢; omega) [x]
            rw [List.cons_append] at heq
            refine ⟨(if cur.isEmpty then [] else [cur]) ++ gs₁, suffix, gs₂,
              ?_⟩
            rw [expGroupsGo.eq_3, hb1, hx]
            simp [heq, List.append_assoc]
          | false =>
            obtain ⟨gs₁, suffix, gs₂, heq⟩ :=
              ih (p :: pre'') (by simp at hlen ⊢; omega) (cur ++ [x])
            rw [List.cons_append] at heq
            refine ⟨gs₁, suffix, gs₂, ?_⟩
            rw [expGroupsGo.eq_3, hb1, hx]
            simp [heq]

theorem extractExpEntry_fields (t d : String) (suffix : List String)
    (ht : isDurationLine t = false) (hs : isShortLine t = true)
    (hd : isDurationLine d = true) :
    (extractExpEntry (t :: d :: suffix)).title = some t ∧
      (extractExpEntry (t :: d :: suffix)).duration = some d := by
  have hfi : firstIdx isDurationLine (t :: d :: suffix) = some 1 := by
    simp [firstIdx, ht, hd]
  simp [extractExpEntry, hfi, hs]

/-- C9: in any experience bucket where a short non-duration title line is
immediately followed by a duration line, the experience extractor puts that
title and that duration in the same ExperienceEntry; and a bucket with no
recognizable duration line still yields an entry carrying the whole block
as its description, so unmatched work history is not silently dropped. -/
theorem extractExperience_adjacent_title_duration
    (pre post bucket : List String) (t d : String)
    (ht : isDurationLine t = false) (hs : isShortLine t = true)
    (hd : isDurationLine d = true)
    (hb : bucket ≠ []) (hnd : ∀ l ∈ bucket, isDurationLine l = false) :
    (∃ e ∈ extractExperience (pre ++ t :: d :: post),
        e.title = some t ∧ e.duration = some d) ∧
      extractExperience bucket =
        [{ title := none, company := none, duration := none,
           description := some (joinWithSpace bucket) }] := by
  constructor
  · obtain ⟨gs₁, suffix, gs₂, heq⟩ :=
      expGroupsGo_reaches t d post ht hs hd pre.length pre le_rfl []
    refine ⟨extractExpEntry (t :: d :: suffix), ?_, ?_⟩
    · rw [extractExperience, heq]
      refine List.mem_map_of_mem extractExpEntry ?_
      simp
    · exact extractExpEntry_fields t d suffix ht hs hd
  · rw [extractExperience, expGroupsGo_no_duration bucket [] (Or.inr hb) hnd]
    have hfi : firstIdx isDurationLine bucket = none :=
      firstIdx_eq_none _ _ hnd
    have hbe : bucket.isEmpty = false := by
      cases bucket with
      | nil => exact absurd rfl hb
      | cons c cs => rfl
    simp [extractExpEntry, hfi, hbe]

/-- Witness for C9 at the title Software Engineer adjacent to the duration
Jan 2020 - Present, and at a duration-free one-line bucket. -/
theorem extractExperience_adjacent_title_duration_witness :
    (∃ e ∈ extractExperience (["Acme Corp intro"] ++ "Software Engineer" ::
        "Jan 2020 - Present" :: ["Shipped many features"]),
      e.title = some "Software Engineer" ∧
        e.duration = some "Jan 2020 - Present") ∧
      extractExperience ["Worked on various projects and tasks"] =
        [{ title := none, company := none, duration := none,
           description :=
             some (joinWithSpace ["Worked on various projects and tasks"]) }] :=
  extractExperience_adjacent_title_duration ["Acme Corp intro"]
    ["Shipped many features"] ["Worked on various projects and tasks"]
    "Software Engineer" "Jan 2020 - Present" (by decide) (by decide)
    (by decide) (by decide) (by decide)
